import Mathlib

/-!
Shallow embedding of the Five Crowns rule engine and solver
(`five_crowns.py`, `meld_finder.py`, `game_engine.py`).

Cards are `(rank, suit)` values with ranks kept as the source's strings.
Python exceptions (the `RANK_VALUES` dictionary lookup in `is_valid_run`,
the out-of-range round in `get_wild_card`) are modelled with `Option`:
`none` is an uncaught exception.  Inside `is_valid_run` the guard
`lookupsOK` fails exactly when some non-wild card's rank is missing from
the rank table, which is exactly when the Python `sorted(...)` call on
line 149 of `five_crowns.py` raises `KeyError`; past that guard a total
lookup with default 0 is safe.

For the meld enumerator and the partition solver, Python compares cards
by *object identity* (`id(card)`), so a hand is embedded as its indexed
form `hand.enum : List (Nat × Card)`: the index plays the role of the
object identity.  `itertools.combinations(l, k)` over all `k` in a range
is embedded as `l.sublists` filtered by length, which enumerates exactly
the same subsets.
-/

inductive Suit where
  | spades
  | hearts
  | clubs
  | diamonds
  | stars
  | joker
deriving DecidableEq

structure Card where
  rank : String
  suit : Suit
deriving DecidableEq

/-- Embeds `MeldValidator.RANK_ORDER` from `five_crowns.py`. -/
def RANK_ORDER : List String :=
  ["3", "4", "5", "6", "7", "8", "9", "10", "J", "Q", "K"]

/-- Embeds `MeldValidator.RANK_VALUES[r]`: the ordinal of a rank, `none` when the
rank is not a key of the dictionary (a Python `KeyError`). -/
def rankValue? (r : String) : Option Nat :=
  RANK_ORDER.findIdx? (fun x => x == r)

/-- Total version of the rank lookup, only used behind the `lookupsOK` guard. -/
def rankValueD (r : String) : Nat :=
  (rankValue? r).getD 0

/-- Embeds `MeldValidator.is_wild`: jokers are always wild, plus the round's wild rank. -/
def is_wild (c : Card) (wild_rank : String) : Bool :=
  c.rank == wild_rank || c.rank == "Joker"

/-- Embeds `MeldValidator.get_wild_card`: wild rank for a round, `none` models the
`ValueError` raised for rounds outside 1..11. -/
def get_wild_card (round_number : Int) : Option String :=
  if round_number < 1 ∨ 11 < round_number then none
  else RANK_ORDER.get? (round_number - 1).toNat

/-- The `non_wilds` list computed by both validators. -/
def nonWilds (cards : List Card) (wild_rank : String) : List Card :=
  cards.filter (fun c => !is_wild c wild_rank)

/-- The duplicate-suit scan of `is_valid_book` (`suits_seen`). -/
def hasDupSuits : List Card → Bool
  | [] => false
  | c :: rest => rest.any (fun d => d.suit == c.suit) || hasDupSuits rest

/-- Embeds `MeldValidator.is_valid_book`. -/
def is_valid_book (cards : List Card) (wild_rank : String) : Bool :=
  if cards.length < 3 then false
  else
    match nonWilds cards wild_rank with
    | [] => false
    | c0 :: rest =>
      if !((c0 :: rest).all (fun c => c.rank == c0.rank)) then false
      else !hasDupSuits (c0 :: rest)

/-- The same-suit check of `is_valid_run` (`target_suit`). -/
def sameSuitOK : List Card → Bool
  | [] => true
  | c0 :: rest => (c0 :: rest).all (fun c => c.suit == c0.suit)

/-- True when every rank of the list is a key of `RANK_VALUES`; the sort on
line 149 of `five_crowns.py` raises `KeyError` exactly when this is false. -/
def lookupsOK (l : List Card) : Bool :=
  l.all (fun c => (rankValue? c.rank).isSome)

/-- Stable insertion into a list sorted by a `Nat` key. -/
def insertByKey {α : Type} (key : α → Nat) (x : α) : List α → List α
  | [] => [x]
  | y :: ys => if key x ≤ key y then x :: y :: ys else y :: insertByKey key x ys

/-- Stable insertion sort by a `Nat` key (Python's `sorted(..., key=...)`). -/
def sortByKey {α : Type} (key : α → Nat) : List α → List α
  | [] => []
  | x :: xs => insertByKey key x (sortByKey key xs)

/-- Embeds `sorted(non_wilds, key=RANK_VALUES[c.rank])`. -/
def sortCards (l : List Card) : List Card :=
  sortByKey (fun c => rankValueD c.rank) l

/-- The duplicate-rank scan of `is_valid_run` (`ranks_seen`). -/
def hasDupRanks : List Card → Bool
  | [] => false
  | c :: rest => rest.any (fun d => d.rank == c.rank) || hasDupRanks rest

/-- Embeds `wilds_needed_for_gaps`: ordinals missing strictly between adjacent
sorted non-wild cards. -/
def gapSum : List Card → Nat
  | [] => 0
  | [_] => 0
  | a :: b :: rest => (rankValueD b.rank - rankValueD a.rank - 1) + gapSum (b :: rest)

/-- Rank ordinal of the first card of a list (`sorted_cards[0]`). -/
def headRank : List Card → Nat
  | [] => 0
  | c :: _ => rankValueD c.rank

/-- Rank ordinal of the last card of a list (`sorted_cards[-1]`). -/
def lastRank : List Card → Nat
  | [] => 0
  | [c] => rankValueD c.rank
  | _ :: c :: rest => lastRank (c :: rest)

/-- Embeds `wild_count = len(cards) - len(non_wilds)`. -/
def wildCount (cards : List Card) (wild_rank : String) : Nat :=
  cards.length - (nonWilds cards wild_rank).length

/-- Embeds `wilds_needed_for_gaps` of `is_valid_run`. -/
def gapSumOf (cards : List Card) (wild_rank : String) : Nat :=
  gapSum (sortCards (nonWilds cards wild_rank))

/-- Embeds `remaining_wilds = wild_count - wilds_needed_for_gaps`. -/
def remWilds (cards : List Card) (wild_rank : String) : Nat :=
  wildCount cards wild_rank - gapSumOf cards wild_rank

/-- Embeds `lowest_rank_value` of `is_valid_run`. -/
def loOrd (cards : List Card) (wild_rank : String) : Nat :=
  headRank (sortCards (nonWilds cards wild_rank))

/-- Embeds `highest_rank_value` of `is_valid_run`. -/
def hiOrd (cards : List Card) (wild_rank : String) : Nat :=
  lastRank (sortCards (nonWilds cards wild_rank))

/-- Embeds `min_span = highest - lowest + 1`. -/
def minSpan (cards : List Card) (wild_rank : String) : Nat :=
  hiOrd cards wild_rank - loOrd cards wild_rank + 1

/-- Embeds `has_rank_k = any(c.rank == 'K' for c in cards)`. -/
def hasRankK (cards : List Card) : Bool :=
  cards.any (fun c => c.rank == "K")

/-- Embeds `has_rank_3_as_start` of `is_valid_run`. -/
def has3Start (cards : List Card) (wild_rank : String) : Bool :=
  loOrd cards wild_rank == 0 ||
    (wild_rank == "3" && cards.any (fun c => c.rank == "3") &&
      loOrd cards wild_rank == 1)

/-- Embeds `MeldValidator.is_valid_run`; `none` models the `KeyError` raised by the
rank-table lookups when a non-wild card's rank has no ordinal. -/
def is_valid_run (cards : List Card) (wild_rank : String) : Option Bool :=
  if cards.length < 3 then some false
  else if nonWilds cards wild_rank = [] then some false
  else if sameSuitOK (nonWilds cards wild_rank) = false then some false
  else if lookupsOK (nonWilds cards wild_rank) = false then none
  else if hasDupRanks (sortCards (nonWilds cards wild_rank)) = true then some false
  else if wildCount cards wild_rank < gapSumOf cards wild_rank then some false
  else if cards.length ≠ minSpan cards wild_rank + remWilds cards wild_rank then some false
  else if 0 < remWilds cards wild_rank then
    if hasRankK cards = true ∧ hiOrd cards wild_rank = 10 then some false
    else if has3Start cards wild_rank = true then some false
    else if loOrd cards wild_rank + (10 - hiOrd cards wild_rank) <
        remWilds cards wild_rank then some false
    else some true
  else some true

-- Shorthand cards used in concrete scenarios.
def c3S : Card := ⟨"3", Suit.spades⟩
def c5S : Card := ⟨"5", Suit.spades⟩
def c7S : Card := ⟨"7", Suit.spades⟩
def c3H : Card := ⟨"3", Suit.hearts⟩
def c5H : Card := ⟨"5", Suit.hearts⟩
def c9H : Card := ⟨"9", Suit.hearts⟩
def c7H : Card := ⟨"7", Suit.hearts⟩
def c7C : Card := ⟨"7", Suit.clubs⟩
def cJS : Card := ⟨"J", Suit.spades⟩
def cQS : Card := ⟨"Q", Suit.spades⟩
def cKS : Card := ⟨"K", Suit.spades⟩
def c5Sp : Card := ⟨"5", Suit.spades⟩
def c6S : Card := ⟨"6", Suit.spades⟩
def cJok : Card := ⟨"Joker", Suit.joker⟩

example : is_valid_run [c5S, c3S, c7S] "3" = some true := by decide
example : is_valid_run [c5H, c3H, c9H] "3" = some false := by decide
example : is_valid_run [cJS, cQS, cKS, c3S] "3" = some false := by decide
example : is_valid_book [c7H, c7S, c7C] "3" = true := by decide
example : is_valid_book [c7H, c7S, cJok] "3" = true := by decide

structure ValidationResult where
  valid : Bool
  error_message : Option String
deriving DecidableEq

/-- The loop body of `MeldValidator.validate_all_melds`, carrying the
0-based loop index `i`; `none` models the `KeyError` that
`is_valid_run` can raise inside the loop. -/
def validate_from (melds : List (List Card)) (wild_rank : String) (i : Nat) :
    Option ValidationResult :=
  match melds with
  | [] => some ⟨true, none⟩
  | meld :: rest =>
    if meld.length < 3 then
      some ⟨false, some ("Group " ++ toString (i + 1) ++ " has only " ++
        toString meld.length ++ " cards (need 3+)")⟩
    else
      match is_valid_run meld wild_rank with
      | none => none
      | some is_run =>
        if (is_valid_book meld wild_rank || is_run) = false then
          some ⟨false, some ("Group " ++ toString (i + 1) ++
            " is neither a valid book nor run")⟩
        else validate_from rest wild_rank (i + 1)

/-- Embeds `MeldValidator.validate_all_melds` (the `if not melds` early return and
the loop coincide for the empty list). -/
def validate_all_melds (melds : List (List Card)) (wild_rank : String) :
    Option ValidationResult :=
  validate_from melds wild_rank 0

/-- Python's `int(...)` restricted to decimal-digit strings: `none` models
the `ValueError` raised on non-numeric input.  (Defined over `String.data`
so that it evaluates inside the kernel.) -/
def strToNat? (s : String) : Option Nat :=
  if s.data ≠ [] ∧ s.data.all (fun c => 48 ≤ c.toNat && c.toNat ≤ 57) then
    some (s.data.foldl (fun n c => n * 10 + (c.toNat - 48)) 0)
  else none

/-- Embeds `MeldFinder._card_value` (identical branch structure to the inline
valuation in `Player.calculate_hand_value`). -/
def card_value (c : Card) (wild_rank : String) : Nat :=
  if is_wild c wild_rank = true then 20
  else if c.rank = "J" ∨ c.rank = "Q" ∨ c.rank = "K" then 10
  else (strToNat? c.rank).getD 0

/-- Embeds `MeldFinder._calculate_hand_value`: total of `_card_value` over a list. -/
def hand_value : List Card → String → Nat
  | [], _ => 0
  | c :: cs, wild_rank => card_value c wild_rank + hand_value cs wild_rank

/-- Embeds `Player.calculate_hand_value` from `game_engine.py`, with its own inline
copy of the valuation branches, folded over the hand like the Python loop. -/
def calculate_hand_value (hand : List Card) (wild_rank : String) : Nat :=
  hand.foldl (fun total c =>
    if is_wild c wild_rank = true then total + 20
    else if c.rank = "J" ∨ c.rank = "Q" ∨ c.rank = "K" then total + 10
    else total + (strToNat? c.rank).getD 0) 0

/-!  ### Meld enumerator and partition solver (`meld_finder.py`)

A hand card is a pair `(i, c)` of its position in the hand and its value;
the position models Python's `id(card)` object identity. -/

abbrev IC := Nat × Card

/-- Keys of a Python dict in insertion (first-occurrence) order. -/
def firstKeys {α κ : Type} [DecidableEq κ] (key : α → κ) : List α → List κ
  | [] => []
  | x :: xs => key x :: (firstKeys key xs).filter (fun k => !(decide (k = key x)))

/-- Grouping a list by a key, in dict insertion order, each group in list
order (the `rank_groups` / `suit_groups` dictionaries). -/
def groupByKey {α κ : Type} [DecidableEq κ] (key : α → κ) (l : List α) :
    List (κ × List α) :=
  (firstKeys key l).map (fun k => (k, l.filter (fun x => decide (key x = k))))

/-- The wild cards of the indexed hand, in hand order. -/
def wildsOf (ihand : List IC) (wild_rank : String) : List IC :=
  ihand.filter (fun p => is_wild p.2 wild_rank)

/-- The non-wild cards of the indexed hand, in hand order. -/
def nonWildsOf (ihand : List IC) (wild_rank : String) : List IC :=
  ihand.filter (fun p => is_wild p.2 wild_rank = false)

/-- The card values of an indexed meld. -/
def cardsOf (m : List IC) : List Card :=
  m.map Prod.snd

/-- Embeds `MeldFinder.find_all_books`: for each rank group, combinations of at
least 3 cards of that rank, optionally extended by any nonempty combination
of wilds; plus the group's first card with at least 2 wilds.  (The Python
guard `len(book) + num_wilds < 3: continue` is vacuous since
`len(book) >= 3` and is dropped.) -/
def find_all_books (ihand : List IC) (wild_rank : String) : List (List IC) :=
  let wilds := wildsOf ihand wild_rank
  let groups := groupByKey (fun p => p.2.rank) (nonWildsOf ihand wild_rank)
  (groups.flatMap (fun g =>
    (g.2.sublists.filter (fun s => 3 ≤ s.length)).flatMap (fun s =>
      (if is_valid_book (cardsOf s) wild_rank = true then [s] else []) ++
      ((wilds.sublists.filter (fun ws => 1 ≤ ws.length)).filterMap (fun ws =>
        if is_valid_book (cardsOf (s ++ ws)) wild_rank = true then some (s ++ ws)
        else none))))) ++
  (groups.flatMap (fun g =>
    match g.2 with
    | [] => []
    | c :: _ =>
      (wilds.sublists.filter (fun ws => 2 ≤ ws.length)).filterMap (fun ws =>
        if is_valid_book (cardsOf (c :: ws)) wild_rank = true then some (c :: ws)
        else none)))

/-- The sort of a suit group by rank ordinal (line 85 of `meld_finder.py`). -/
def sortPairs (l : List IC) : List IC :=
  sortByKey (fun p => rankValueD p.2.rank) l

/-- Embeds `MeldFinder.find_all_runs`: for each suit group, combinations of at
least 3 cards of the suit, optionally extended by any nonempty combination
of wilds; plus combinations of 1 or 2 suit cards with at least `3 - size`
wilds.  A run is kept when `is_valid_run` returns `some true`; `none`
(a lookup exception) cannot occur for game ranks. -/
def find_all_runs (ihand : List IC) (wild_rank : String) : List (List IC) :=
  let wilds := wildsOf ihand wild_rank
  let groups := groupByKey (fun p => p.2.suit) (nonWildsOf ihand wild_rank)
  (groups.flatMap (fun g =>
    ((sortPairs g.2).sublists.filter (fun s => 3 ≤ s.length)).flatMap (fun s =>
      (if is_valid_run (cardsOf s) wild_rank = some true then [s] else []) ++
      ((wilds.sublists.filter (fun ws => 1 ≤ ws.length)).filterMap (fun ws =>
        if is_valid_run (cardsOf (s ++ ws)) wild_rank = some true then some (s ++ ws)
        else none))))) ++
  (groups.flatMap (fun g =>
    (g.2.sublists.filter (fun s => 1 ≤ s.length ∧ s.length < 3)).flatMap (fun s =>
      (wilds.sublists.filter (fun ws => 3 - s.length ≤ ws.length)).filterMap (fun ws =>
        if 3 ≤ (s ++ ws).length ∧
            is_valid_run (cardsOf (s ++ ws)) wild_rank = some true then
          some (s ++ ws)
        else none))))

/-- Embeds `MeldFinder.find_all_melds`. -/
def find_all_melds (ihand : List IC) (wild_rank : String) : List (List IC) :=
  find_all_books ihand wild_rank ++ find_all_runs ihand wild_rank

/-- Embeds `MeldFinder._cards_to_frozenset`: the value-level `(rank, suit)` pairs
of a meld, compared as a *set* (a Python `frozenset`). -/
def keyOf (m : List IC) : List (String × Suit) :=
  m.map (fun p => (p.2.rank, p.2.suit))

/-- Equality of two frozenset keys: mutual containment (set equality of
the underlying `(rank, suit)` collections). -/
def keyEq (k1 k2 : List (String × Suit)) : Bool :=
  k1.all (fun x => decide (x ∈ k2)) && k2.all (fun x => decide (x ∈ k1))

/-- The deduplication loop of `find_best_meld_combination`: keep a meld
when its frozenset key has not been seen yet. -/
def dedupLoop : List (List IC) → List (List (String × Suit)) → List (List IC)
  | [], _ => []
  | m :: rest, seen =>
    if seen.any (fun k => keyEq k (keyOf m)) then dedupLoop rest seen
    else m :: dedupLoop rest (keyOf m :: seen)

/-- Embeds `unique_melds` of `find_best_meld_combination`. -/
def dedupMelds (melds : List (List IC)) : List (List IC) :=
  dedupLoop melds []

/-- The `used_cards` id set of the solver: positions of all cards of the
chosen melds. -/
def usedIds (melds : List (List IC)) : List Nat :=
  (melds.map (fun m => m.map Prod.fst)).flatten

/-- Whether a meld overlaps the used-card set (`any(id(card) in used_cards)`). -/
def overlapsUsed (used : List Nat) (m : List IC) : Bool :=
  m.any (fun p => used.contains p.1)

/-- Embeds `points_saved` of a candidate meld. -/
def meldPoints (m : List IC) (wild_rank : String) : Nat :=
  hand_value (cardsOf m) wild_rank

/-- The candidate-selection scan inside `_greedy_meld_selection`: first
non-overlapping meld with strictly maximal positive `points_saved`. -/
def pickBest (melds : List (List IC)) (used : List Nat) (wild_rank : String)
    (best : Option (List IC)) (best_points : Nat) : Option (List IC) :=
  match melds with
  | [] => best
  | m :: rest =>
    if overlapsUsed used m = true then pickBest rest used wild_rank best best_points
    else if best_points < meldPoints m wild_rank then
      pickBest rest used wild_rank (some m) (meldPoints m wild_rank)
    else pickBest rest used wild_rank best best_points

/-- The `while True` loop of `_greedy_meld_selection`, with explicit fuel.
Every selected meld has positive points, hence is nonempty and disjoint
from the cards already used, so the loop performs at most as many
iterations as there are card occurrences in the candidate list; the fuel
passed by `greedy_meld_selection` therefore never runs out before the
natural `best_meld is None` exit. -/
def greedyLoop : Nat → List (List IC) → String → List (List IC) → List (List IC)
  | 0, _, _, acc => acc
  | Nat.succ fuel, melds, wild_rank, acc =>
    match pickBest melds (usedIds acc) wild_rank none 0 with
    | none => acc
    | some m => greedyLoop fuel melds wild_rank (acc ++ [m])

/-- Embeds `MeldFinder._greedy_meld_selection` (its `hand` parameter is unused in
the Python body and dropped here). -/
def greedy_meld_selection (melds : List (List IC)) (wild_rank : String)
    (current : List (List IC)) : List (List IC) :=
  greedyLoop ((melds.map List.length).sum + 1) melds wild_rank current

/-- Embeds `MeldFinder._calculate_remaining_points`: value of the hand cards whose
position is in no chosen meld. -/
def remainingPoints (ihand : List IC) (melds : List (List IC))
    (wild_rank : String) : Nat :=
  hand_value (cardsOf (ihand.filter
    (fun p => !((usedIds melds).contains p.1)))) wild_rank

/-- Embeds `MeldFinder.find_best_meld_combination`.  The call to
`_find_best_combination_recursive` is omitted: its `update_best` callback
is never invoked inside that helper and its return value is discarded, so
it has no effect on the returned pair. -/
def find_best_meld_combination (hand : List Card) (wild_rank : String) :
    List (List IC) × Nat :=
  if hand = [] then ([], 0)
  else
    let ihand := hand.enum
    let unique := dedupMelds (find_all_melds ihand wild_rank)
    let init : List (List IC) × Nat := ([], hand_value hand wild_rank)
    let withStarts := unique.foldl (fun best start =>
      let result := greedy_meld_selection unique wild_rank [start]
      let pts := remainingPoints ihand result wild_rank
      if pts < best.2 then (result, pts) else best) init
    let result := greedy_meld_selection unique wild_rank []
    let pts := remainingPoints ihand result wild_rank
    if pts < withStarts.2 then (result, pts) else withStarts

/-- Embeds `MeldFinder.can_go_out`. -/
def can_go_out (hand : List Card) (wild_rank : String) :
    Bool × Option (List (List IC)) :=
  let r := find_best_meld_combination hand wild_rank
  if r.2 = 0 then (true, some r.1) else (false, none)

example : find_all_books [c7H, c7S, cJok].enum "3" = [] := by decide
example : can_go_out [c7H, c7S, cJok] "3" = (false, none) := by decide
example : can_go_out [c7H, c7S, c7C] "3" =
    (true, some [[(0, c7H), (1, c7S), (2, c7C)]]) := by decide

/-!  ### C7: wild rank per round -/

/-- C7: `get_wild_card` succeeds exactly for rounds 1..11, mapping round
`n` to the rank at ordinal `n - 1` of the fixed order
3,4,5,6,7,8,9,10,J,Q,K, and fails (raises) for every other round number,
such as 0 or 12. -/
theorem claim_C7_get_wild_card :
    (∀ n : Int, 1 ≤ n → n ≤ 11 →
      get_wild_card n = RANK_ORDER.get? (n - 1).toNat ∧
        (get_wild_card n).isSome = true) ∧
    (∀ n : Int, n < 1 ∨ 11 < n → get_wild_card n = none) ∧
    get_wild_card 1 = some "3" ∧ get_wild_card 2 = some "4" ∧
    get_wild_card 3 = some "5" ∧ get_wild_card 4 = some "6" ∧
    get_wild_card 5 = some "7" ∧ get_wild_card 6 = some "8" ∧
    get_wild_card 7 = some "9" ∧ get_wild_card 8 = some "10" ∧
    get_wild_card 9 = some "J" ∧ get_wild_card 10 = some "Q" ∧
    get_wild_card 11 = some "K" ∧
    get_wild_card 0 = none ∧ get_wild_card 12 = none := by
  refine ⟨?_, ?_, by decide, by decide, by decide, by decide, by decide,
    by decide, by decide, by decide, by decide, by decide, by decide,
    by decide, by decide⟩
  · intro n h1 h2
    constructor
    · unfold get_wild_card
      rw [if_neg (by omega)]
    · interval_cases n <;> decide
  · intro n h
    unfold get_wild_card
    rw [if_pos h]

/-- C7 witness at round 5. -/
theorem claim_C7_witness :
    get_wild_card 5 = RANK_ORDER.get? 4 ∧ (get_wild_card 5).isSome = true :=
  claim_C7_get_wild_card.1 5 (by decide) (by decide)

/-!  ### C9: the empty hand goes out -/

/-- C9: on the empty hand, `find_best_meld_combination` returns no melds
and 0 leftover points, so `can_go_out` reports `true` with an empty meld
list. -/
theorem claim_C9_empty_hand (wild_rank : String) :
    find_best_meld_combination [] wild_rank = ([], 0) ∧
      can_go_out [] wild_rank = (true, some []) :=
  ⟨rfl, rfl⟩

/-!  ### C8: point valuation -/

/-- The fold step of `Player.calculate_hand_value` adds exactly
`card_value`. -/
theorem calculate_step_eq (total : Nat) (c : Card) (wild_rank : String) :
    (if is_wild c wild_rank = true then total + 20
      else if c.rank = "J" ∨ c.rank = "Q" ∨ c.rank = "K" then total + 10
      else total + (strToNat? c.rank).getD 0) = total + card_value c wild_rank := by
  unfold card_value
  split
  · rfl
  · split <;> rfl

/-- The player scorer `Player.calculate_hand_value` agrees with the solver's
`_calculate_hand_value` on every hand, for any initial accumulator. -/
theorem calculate_foldl_eq (hand : List Card) (wild_rank : String) :
    ∀ total : Nat,
      hand.foldl (fun total c =>
        if is_wild c wild_rank = true then total + 20
        else if c.rank = "J" ∨ c.rank = "Q" ∨ c.rank = "K" then total + 10
        else total + (strToNat? c.rank).getD 0) total =
      total + hand_value hand wild_rank := by
  induction hand with
  | nil => intro total; simp [hand_value]
  | cons c cs ih =>
    intro total
    simp only [List.foldl_cons, hand_value]
    rw [calculate_step_eq, ih, Nat.add_assoc]

/-- C8: a wild card (round wild rank or Joker) is worth 20; a non-wild
J, Q or K is worth 10; any other non-wild game rank is worth its numeric
face value, between 3 and 10; a J/Q/K that is the round's wild rank is
worth 20, not 10; and the valuation used by the solver
(`MeldFinder._card_value` summed by `_calculate_hand_value`) agrees with
the player scorer (`Player.calculate_hand_value`) on every hand. -/
theorem claim_C8_point_value :
    (∀ (c : Card) (wild_rank : String),
      is_wild c wild_rank = true → card_value c wild_rank = 20) ∧
    (∀ (c : Card) (wild_rank : String),
      is_wild c wild_rank = false → (c.rank = "J" ∨ c.rank = "Q" ∨ c.rank = "K") →
        card_value c wild_rank = 10) ∧
    (∀ (c : Card) (wild_rank : String),
      is_wild c wild_rank = false → c.rank ∈ RANK_ORDER →
        ¬(c.rank = "J" ∨ c.rank = "Q" ∨ c.rank = "K") →
        card_value c wild_rank = (strToNat? c.rank).getD 0 ∧
          3 ≤ card_value c wild_rank ∧ card_value c wild_rank ≤ 10) ∧
    card_value ⟨"K", Suit.spades⟩ "K" = 20 ∧
    (∀ (hand : List Card) (wild_rank : String),
      calculate_hand_value hand wild_rank = hand_value hand wild_rank) := by
  refine ⟨?_, ?_, ?_, by decide, ?_⟩
  · intro c wild_rank h
    unfold card_value
    rw [if_pos h]
  · intro c wild_rank h hjqk
    unfold card_value
    rw [if_neg (by simp [h]), if_pos hjqk]
  · intro c wild_rank h hmem hjqk
    have hval : card_value c wild_rank = (strToNat? c.rank).getD 0 := by
      unfold card_value
      rw [if_neg (by simp [h]), if_neg hjqk]
    refine ⟨hval, ?_, ?_⟩ <;>
    · rw [hval]
      simp only [RANK_ORDER, List.mem_cons, List.not_mem_nil, or_false] at hmem
      rcases hmem with h | h | h | h | h | h | h | h | h | h | h <;>
        simp [h] at hjqk ⊢ <;> decide
  · intro hand wild_rank
    unfold calculate_hand_value
    rw [calculate_foldl_eq]
    simp

/-- C8 witness: the 9 of hearts is non-wild in round 1 and worth 9. -/
theorem claim_C8_witness :
    card_value c9H "3" = (strToNat? "9").getD 0 ∧
      3 ≤ card_value c9H "3" ∧ card_value c9H "3" ≤ 10 :=
  claim_C8_point_value.2.2.1 c9H "3" (by decide) (by decide) (by decide)

/-!  ### C5 and C1: run validation -/

/-- Each of the 11 table ranks has an ordinal. -/
theorem rankValue_isSome_of_mem {r : String} (h : r ∈ RANK_ORDER) :
    (rankValue? r).isSome = true := by
  simp only [RANK_ORDER, List.mem_cons, List.not_mem_nil, or_false] at h
  rcases h with h | h | h | h | h | h | h | h | h | h | h <;> rw [h] <;> decide

/-- A non-wild card is not a Joker, so on game ranks every non-wild rank
has an ordinal and the run validator's table lookups all succeed. -/
theorem lookupsOK_of_legal (cards : List Card) (wild_rank : String)
    (h : ∀ c ∈ cards, c.rank ∈ RANK_ORDER ∨ c.rank = "Joker") :
    lookupsOK (nonWilds cards wild_rank) = true := by
  unfold lookupsOK
  rw [List.all_eq_true]
  intro c hc
  rw [nonWilds, List.mem_filter] at hc
  obtain ⟨hmem, hw⟩ := hc
  have hnw : is_wild c wild_rank = false := by
    revert hw
    cases is_wild c wild_rank <;> simp
  have hnj : c.rank ≠ "Joker" := by
    intro hj
    unfold is_wild at hnw
    rw [hj] at hnw
    simp at hnw
  rcases h c hmem with hr | hr
  · exact rankValue_isSome_of_mem hr
  · exact absurd hr hnj

/-- C5: on a candidate run over game ranks with at least 3 cards, at least
one non-wild card, a uniform non-wild suit and no duplicate non-wild
ranks, `is_valid_run` returns `false` whenever the wild count is below the
internal gap sum, and also whenever the total length differs from the
non-wild span plus the remaining wilds; `[5S,3S,7S]` with wild rank 3 is a
valid run while `[5H,3H,9H]` is not. -/
theorem claim_C5_run_gaps_and_length :
    (∀ (cards : List Card) (wild_rank : String),
      3 ≤ cards.length →
      nonWilds cards wild_rank ≠ [] →
      sameSuitOK (nonWilds cards wild_rank) = true →
      hasDupRanks (sortCards (nonWilds cards wild_rank)) = false →
      (∀ c ∈ cards, c.rank ∈ RANK_ORDER ∨ c.rank = "Joker") →
      (wildCount cards wild_rank < gapSumOf cards wild_rank →
        is_valid_run cards wild_rank = some false) ∧
      (cards.length ≠ minSpan cards wild_rank + remWilds cards wild_rank →
        is_valid_run cards wild_rank = some false)) ∧
    is_valid_run [c5S, c3S, c7S] "3" = some true ∧
    is_valid_run [c5H, c3H, c9H] "3" = some false := by
  refine ⟨?_, by decide, by decide⟩
  intro cards wild_rank h3 hne hsuit hdup hlegal
  have hlook := lookupsOK_of_legal cards wild_rank hlegal
  constructor
  · intro hgap
    unfold is_valid_run
    rw [if_neg (by omega), if_neg hne, if_neg (by simp [hsuit]),
      if_neg (by simp [hlook]), if_neg (by simp [hdup]), if_pos hgap]
  · intro hlen
    unfold is_valid_run
    rw [if_neg (by omega), if_neg hne, if_neg (by simp [hsuit]),
      if_neg (by simp [hlook]), if_neg (by simp [hdup])]
    by_cases hg : wildCount cards wild_rank < gapSumOf cards wild_rank
    · rw [if_pos hg]
    · rw [if_neg hg, if_pos hlen]

/-- C5 witness: `[5H,3H,9H]` with wild rank 3 satisfies the preconditions
and has one wild against an internal gap sum of 3, so the run is rejected. -/
theorem claim_C5_witness : is_valid_run [c5H, c3H, c9H] "3" = some false :=
  ((claim_C5_run_gaps_and_length.1 [c5H, c3H, c9H] "3" (by decide)
    (by decide) (by decide) (by decide) (by decide)).1 (by decide))

/-- C1 counterexample: `[J♠,Q♠,K♠,3♠]` with wild rank 3 meets every
precondition of the claim — 4 cards, three non-wild spades J,Q,K with no
duplicates or gaps, one remaining wild, total length = span (3) + 1 — and
satisfies `remaining_wilds ≤ slack_low + slack_high` (1 ≤ 8 + 0), yet
`is_valid_run` rejects it: the code forbids *all* wild extension once the
non-wild span touches the K ceiling. -/
theorem claim_C1_counterexample :
    3 ≤ ([cJS, cQS, cKS, c3S] : List Card).length ∧
    nonWilds [cJS, cQS, cKS, c3S] "3" ≠ [] ∧
    sameSuitOK (nonWilds [cJS, cQS, cKS, c3S] "3") = true ∧
    hasDupRanks (sortCards (nonWilds [cJS, cQS, cKS, c3S] "3")) = false ∧
    gapSumOf [cJS, cQS, cKS, c3S] "3" ≤ wildCount [cJS, cQS, cKS, c3S] "3" ∧
    ([cJS, cQS, cKS, c3S] : List Card).length =
      minSpan [cJS, cQS, cKS, c3S] "3" + remWilds [cJS, cQS, cKS, c3S] "3" ∧
    remWilds [cJS, cQS, cKS, c3S] "3" ≤
      loOrd [cJS, cQS, cKS, c3S] "3" + (10 - hiOrd [cJS, cQS, cKS, c3S] "3") ∧
    is_valid_run [cJS, cQS, cKS, c3S] "3" = some false := by
  decide

/-- C1 amended: under the claim's preconditions, `is_valid_run` returns
`true` when the remaining wilds fit in the combined slack **and**, if any
remaining wilds exist, the non-wild span does not already touch a
boundary: its highest ordinal is not K's and it does not effectively start
at rank 3 (`has_rank_3_as_start`).  A span touching the floor or ceiling
*is* rejected outright whenever remaining wilds exist (the strict rule,
contrary to the claim's slack-only rule). -/
theorem claim_C1_run_boundary_strict (cards : List Card) (wild_rank : String)
    (h3 : 3 ≤ cards.length)
    (hne : nonWilds cards wild_rank ≠ [])
    (hsuit : sameSuitOK (nonWilds cards wild_rank) = true)
    (hdup : hasDupRanks (sortCards (nonWilds cards wild_rank)) = false)
    (hlegal : ∀ c ∈ cards, c.rank ∈ RANK_ORDER ∨ c.rank = "Joker")
    (hgap : gapSumOf cards wild_rank ≤ wildCount cards wild_rank)
    (hlen : cards.length = minSpan cards wild_rank + remWilds cards wild_rank)
    (hbound : 0 < remWilds cards wild_rank →
      hiOrd cards wild_rank ≠ 10 ∧ has3Start cards wild_rank = false ∧
        remWilds cards wild_rank ≤
          loOrd cards wild_rank + (10 - hiOrd cards wild_rank)) :
    is_valid_run cards wild_rank = some true := by
  have hlook := lookupsOK_of_legal cards wild_rank hlegal
  unfold is_valid_run
  rw [if_neg (by omega), if_neg hne, if_neg (by simp [hsuit]),
    if_neg (by simp [hlook]), if_neg (by simp [hdup]), if_neg (by omega),
    if_neg (by omega)]
  by_cases hrem : 0 < remWilds cards wild_rank
  · obtain ⟨hK, h3s, hslack⟩ := hbound hrem
    rw [if_pos hrem, if_neg (fun h => hK h.2), if_neg (by simp [h3s]),
      if_neg (by omega)]
  · rw [if_neg hrem]

/-- C1 amended witness: `[5♠,6♠,3♥]` with wild rank 3 has one remaining
wild away from both boundaries and is accepted. -/
theorem claim_C1_witness : is_valid_run [c5S, c6S, c3H] "3" = some true :=
  claim_C1_run_boundary_strict [c5S, c6S, c3H] "3" (by decide) (by decide)
    (by decide) (by decide) (by decide) (by decide) (by decide)
    (fun _ => ⟨by decide, by decide, by decide⟩)

/-!  ### C10: validators never raise on game ranks -/

/-- C10: on any cards whose ranks come from the game set (the 11 table
ranks or Joker) and any wild rank from the table, `is_valid_run` returns a
Boolean rather than raising: the rank-table lookups are applied only to
non-wild cards, a Joker is always wild, and every non-wild rank has an
ordinal, so the lookup guard always passes.  (`is_valid_book` performs no
table lookup at all and is embedded as a total Boolean function.) -/
theorem claim_C10_no_raise (cards : List Card) (wild_rank : String)
    (hlegal : ∀ c ∈ cards, c.rank ∈ RANK_ORDER ∨ c.rank = "Joker")
    (hwild : wild_rank ∈ RANK_ORDER) :
    (is_valid_run cards wild_rank).isSome = true ∧
      lookupsOK (nonWilds cards wild_rank) = true := by
  have hlook := lookupsOK_of_legal cards wild_rank hlegal
  refine ⟨?_, hlook⟩
  unfold is_valid_run
  by_cases h1 : cards.length < 3
  · rw [if_pos h1]; rfl
  rw [if_neg h1]
  by_cases h2 : nonWilds cards wild_rank = []
  · rw [if_pos h2]; rfl
  rw [if_neg h2]
  by_cases h3 : sameSuitOK (nonWilds cards wild_rank) = false
  · rw [if_pos h3]; rfl
  rw [if_neg h3, if_neg (by simp [hlook])]
  by_cases h5 : hasDupRanks (sortCards (nonWilds cards wild_rank)) = true
  · rw [if_pos h5]; rfl
  rw [if_neg h5]
  by_cases h6 : wildCount cards wild_rank < gapSumOf cards wild_rank
  · rw [if_pos h6]; rfl
  rw [if_neg h6]
  by_cases h7 : cards.length ≠ minSpan cards wild_rank + remWilds cards wild_rank
  · rw [if_pos h7]; rfl
  rw [if_neg h7]
  by_cases h8 : 0 < remWilds cards wild_rank
  · rw [if_pos h8]
    by_cases h9 : hasRankK cards = true ∧ hiOrd cards wild_rank = 10
    · rw [if_pos h9]; rfl
    rw [if_neg h9]
    by_cases h10 : has3Start cards wild_rank = true
    · rw [if_pos h10]; rfl
    rw [if_neg h10]
    by_cases h11 : loOrd cards wild_rank + (10 - hiOrd cards wild_rank) <
        remWilds cards wild_rank
    · rw [if_pos h11]; rfl
    rw [if_neg h11]; rfl
  · rw [if_neg h8]; rfl

/-- C10 witness: a hand with a Joker and boundary ranks in round 11
(Ks wild) is validated without a lookup failure. -/
theorem claim_C10_witness :
    (is_valid_run [c3S, cJok, cKS, c5H] "K").isSome = true ∧
      lookupsOK (nonWilds [c3S, cJok, cKS, c5H] "K") = true :=
  claim_C10_no_raise [c3S, cJok, cKS, c5H] "K" (by decide) (by decide)

/-!  ### C6: validating a declared set of melds -/

/-- A meld that passes one iteration of the `validate_all_melds` loop:
size at least 3, the run check returns a Boolean (no lookup exception),
and the meld is a valid book or a valid run. -/
def meldOK (meld : List Card) (wild_rank : String) : Prop :=
  3 ≤ meld.length ∧ ∃ r, is_valid_run meld wild_rank = some r ∧
    (is_valid_book meld wild_rank || r) = true

/-- The validation loop skips over leading melds that pass, advancing the
1-based index accordingly. -/
theorem validate_from_append (pre rest : List (List Card)) (wild_rank : String)
    (h : ∀ m ∈ pre, meldOK m wild_rank) :
    ∀ i, validate_from (pre ++ rest) wild_rank i =
      validate_from rest wild_rank (i + pre.length) := by
  induction pre with
  | nil => intro i; simp
  | cons m pre' ih =>
    intro i
    obtain ⟨hlen, r, hrun, hbr⟩ := h m (List.mem_cons_self m pre')
    have hrest : ∀ m' ∈ pre', meldOK m' wild_rank :=
      fun m' hm' => h m' (List.mem_cons_of_mem m hm')
    show validate_from (m :: (pre' ++ rest)) wild_rank i = _
    unfold validate_from
    rw [if_neg (by omega), hrun]
    dsimp only
    rw [if_neg (by simp [hbr])]
    rw [ih hrest (i + 1)]
    have hidx : i + 1 + pre'.length = i + (m :: pre').length := by
      simp only [List.length_cons]
      omega
    rw [hidx]
    conv_lhs => unfold validate_from

/-- C6: the empty meld list is valid; if every meld passes, the result is
valid with no message; the first offending meld — and only it — is
reported by its 1-based index: with its size when it has fewer than
3 cards, or as neither book nor run when it fails both predicates. -/
theorem claim_C6_validate_all_melds :
    (∀ wild_rank, validate_all_melds [] wild_rank = some ⟨true, none⟩) ∧
    (∀ (melds : List (List Card)) (wild_rank : String),
      (∀ m ∈ melds, meldOK m wild_rank) →
      validate_all_melds melds wild_rank = some ⟨true, none⟩) ∧
    (∀ (pre : List (List Card)) (m : List Card) (post : List (List Card))
        (wild_rank : String),
      (∀ m' ∈ pre, meldOK m' wild_rank) →
      m.length < 3 →
      validate_all_melds (pre ++ m :: post) wild_rank =
        some ⟨false, some ("Group " ++ toString (pre.length + 1) ++
          " has only " ++ toString m.length ++ " cards (need 3+)")⟩) ∧
    (∀ (pre : List (List Card)) (m : List Card) (post : List (List Card))
        (wild_rank : String),
      (∀ m' ∈ pre, meldOK m' wild_rank) →
      3 ≤ m.length →
      is_valid_book m wild_rank = false →
      is_valid_run m wild_rank = some false →
      validate_all_melds (pre ++ m :: post) wild_rank =
        some ⟨false, some ("Group " ++ toString (pre.length + 1) ++
          " is neither a valid book nor run")⟩) := by
  refine ⟨fun _ => rfl, ?_, ?_, ?_⟩
  · intro melds wild_rank h
    unfold validate_all_melds
    have := validate_from_append melds [] wild_rank h 0
    rw [List.append_nil] at this
    rw [this]
    rfl
  · intro pre m post wild_rank hpre hm
    unfold validate_all_melds
    rw [validate_from_append pre (m :: post) wild_rank hpre 0]
    unfold validate_from
    rw [if_pos hm]
    simp [Nat.add_comm]
  · intro pre m post wild_rank hpre hm hbook hrun
    unfold validate_all_melds
    rw [validate_from_append pre (m :: post) wild_rank hpre 0]
    unfold validate_from
    rw [if_neg (by omega), hrun]
    dsimp only
    rw [if_pos (by simp [hbook])]
    simp [Nat.add_comm]

/-- C6 witness: after one passing book, a 1-card group is reported as
"Group 2" with its size, independently of anything after it. -/
theorem claim_C6_witness :
    validate_all_melds [[c7H, c7S, c7C], [c3H], [c5H]] "4" =
      some ⟨false, some "Group 2 has only 1 cards (need 3+)"⟩ :=
  claim_C6_validate_all_melds.2.2.1 [[c7H, c7S, c7C]] [c3H] [[c5H]] "4"
    (by
      intro m' hm'
      simp only [List.mem_singleton] at hm'
      subst hm'
      exact ⟨by decide, false, by decide, by decide⟩)
    (by decide)

/-!  ### C4: deduplication keys melds by a plain set, not a multiset -/

/-- A frozenset key equals itself. -/
theorem keyEq_refl (k : List (String × Suit)) : keyEq k k = true := by
  simp [keyEq, List.all_eq_true]

/-- Every meld kept by the dedup loop comes from the input list. -/
theorem dedupLoop_subset :
    ∀ (l : List (List IC)) (seen : List (List (String × Suit))),
      ∀ m ∈ dedupLoop l seen, m ∈ l := by
  intro l
  induction l with
  | nil => intro seen m hm; simp [dedupLoop] at hm
  | cons m0 rest ih =>
    intro seen m hm
    unfold dedupLoop at hm
    by_cases h : (seen.any (fun k => keyEq k (keyOf m0))) = true
    · rw [if_pos h] at hm
      exact List.mem_cons_of_mem m0 (ih seen m hm)
    · rw [if_neg h] at hm
      rcases List.mem_cons.mp hm with h1 | h1
      · exact h1 ▸ List.mem_cons_self _ _
      · exact List.mem_cons_of_mem m0 (ih _ m h1)

/-- The melds kept by the dedup loop have keys outside `seen` and pairwise
distinct keys. -/
theorem dedupLoop_fresh_pairwise :
    ∀ (l : List (List IC)) (seen : List (List (String × Suit))),
      (∀ m ∈ dedupLoop l seen, seen.any (fun k => keyEq k (keyOf m)) = false) ∧
      (dedupLoop l seen).Pairwise
        (fun m1 m2 => keyEq (keyOf m1) (keyOf m2) = false) := by
  intro l
  induction l with
  | nil => intro seen; constructor <;> simp [dedupLoop]
  | cons m0 rest ih =>
    intro seen
    unfold dedupLoop
    by_cases h : (seen.any (fun k => keyEq k (keyOf m0))) = true
    · rw [if_pos h]; exact ih seen
    · rw [if_neg h]
      obtain ⟨ihs, ihp⟩ := ih (keyOf m0 :: seen)
      constructor
      · intro m hm
        rcases List.mem_cons.mp hm with rfl | h1
        · exact Bool.eq_false_iff.mpr h
        · have hall := ihs m h1
          simp only [List.any_cons, Bool.or_eq_false_iff] at hall
          exact hall.2
      · refine List.Pairwise.cons ?_ ihp
        intro m' hm'
        have hall := ihs m' hm'
        simp only [List.any_cons, Bool.or_eq_false_iff] at hall
        exact hall.1

/-- Every input meld has a kept meld with the same frozenset key. -/
theorem dedupLoop_covers :
    ∀ (l : List (List IC)) (seen : List (List (String × Suit))),
      ∀ m ∈ l, seen.any (fun k => keyEq k (keyOf m)) = false →
        ∃ m' ∈ dedupLoop l seen, keyEq (keyOf m') (keyOf m) = true := by
  intro l
  induction l with
  | nil => intro seen m hm; simp at hm
  | cons m0 rest ih =>
    intro seen m hm hseen
    unfold dedupLoop
    by_cases h : (seen.any (fun k => keyEq k (keyOf m0))) = true
    · rw [if_pos h]
      rcases List.mem_cons.mp hm with rfl | h1
      · rw [hseen] at h; cases h
      · exact ih seen m h1 hseen
    · rw [if_neg h]
      rcases List.mem_cons.mp hm with rfl | h1
      · exact ⟨m, List.mem_cons_self _ _, keyEq_refl _⟩
      · by_cases hk : keyEq (keyOf m0) (keyOf m) = true
        · exact ⟨m0, List.mem_cons_self _ _, hk⟩
        · have hseen' : (keyOf m0 :: seen).any
              (fun k => keyEq k (keyOf m)) = false := by
            simp only [List.any_cons, Bool.or_eq_false_iff]
            exact ⟨Bool.eq_false_iff.mpr hk, hseen⟩
          obtain ⟨m', hm', hkey⟩ := ih (keyOf m0 :: seen) m h1 hseen'
          exact ⟨m', List.mem_cons_of_mem _ hm', hkey⟩

/-- C4 amended: the dedup step of `find_best_meld_combination` treats two
candidates as the same meld iff they have the same *set* of `(rank, suit)`
pairs (a `frozenset` signature, multiplicity-blind): it keeps a sublist of
the candidates whose keys are pairwise distinct as sets, with every
candidate represented by some kept meld of set-equal key — so two
candidates that differ only in how many copies of a duplicated card they
use are collapsed to one, not kept distinct. -/
theorem claim_C4_dedup_set_semantics (melds : List (List IC)) :
    (∀ m ∈ dedupMelds melds, m ∈ melds) ∧
    (dedupMelds melds).Pairwise
      (fun m1 m2 => keyEq (keyOf m1) (keyOf m2) = false) ∧
    (∀ m ∈ melds, ∃ m' ∈ dedupMelds melds,
      keyEq (keyOf m') (keyOf m) = true) := by
  refine ⟨fun m hm => dedupLoop_subset melds [] m hm,
    (dedupLoop_fresh_pairwise melds []).2,
    fun m hm => dedupLoop_covers melds [] m hm (by simp)⟩

/-- The melds whose value sets contain the three non-wild sevens and at
least one Joker (used to exhibit the C4 collapse). -/
def keyP (m : List IC) : Bool :=
  (m.any (fun p => p.2 == c7H)) && (m.any (fun p => p.2 == c7S)) &&
    (m.any (fun p => p.2 == c7C)) && (m.any (fun p => p.2.rank == "Joker"))

/-- C4 counterexample: in the hand `[7♥,7♠,7♣,Joker,Joker]` with wild
rank 3, the enumerated candidates include both ⟨three 7s + one Joker⟩
(twice, once per Joker) and ⟨three 7s + both Jokers⟩ — multisets that
differ only in the number of Joker copies — yet after deduplication
exactly one candidate with that value set survives: candidates are keyed
by a plain set signature, and the 5-card candidate is collapsed with the
4-card one rather than kept distinct. -/
theorem claim_C4_counterexample :
    ((find_all_melds ([c7H, c7S, c7C, cJok, cJok].enum) "3").filter
        keyP).length = 3 ∧
    ((find_all_melds ([c7H, c7S, c7C, cJok, cJok].enum) "3").filter
        keyP).countP (fun m => m.length == 4) = 2 ∧
    ((find_all_melds ([c7H, c7S, c7C, cJok, cJok].enum) "3").filter
        keyP).countP (fun m => m.length == 5) = 1 ∧
    ((dedupMelds (find_all_melds ([c7H, c7S, c7C, cJok, cJok].enum) "3")).filter
        keyP).length = 1 := by
  decide

/-- C4 amended witness: with two candidates differing only in Joker
multiplicity, the second is represented by the first after dedup. -/
theorem claim_C4_witness :
    ∃ m' ∈ dedupMelds [[(0, c7H), (1, cJok)], [(0, c7H), (1, cJok), (2, cJok)]],
      keyEq (keyOf m') (keyOf [(0, c7H), (1, cJok), (2, cJok)]) = true :=
  (claim_C4_dedup_set_semantics
    [[(0, c7H), (1, cJok)], [(0, c7H), (1, cJok), (2, cJok)]]).2.2
    [(0, c7H), (1, cJok), (2, cJok)] (by decide)

/-!  ### C3: the book enumerator misses two-real-card books -/

/-- C3: `[7♥,7♠,Joker]` with wild rank 3 is a valid book of combined size
3 built from a size-2 rank-group subset plus one wild, but
`find_all_books` returns no book at all for this hand (its loops only
form books from ≥3 real cards, or from exactly one real card plus ≥2
wilds), so `find_all_melds` also misses the meld — the only meld of the
hand's unique full-cover partition. -/
theorem claim_C3_two_real_book_missing :
    is_valid_book [c7H, c7S, cJok] "3" = true ∧
    ([c7H, c7S, cJok] : List Card).length = 3 ∧
    find_all_books ([c7H, c7S, cJok].enum) "3" = [] ∧
    find_all_melds ([c7H, c7S, cJok].enum) "3" = [] := by
  decide

/-!  ### C2: soundness of `can_go_out`

Well-formedness of every enumerated meld: its cards come from the hand,
its hand positions are pairwise distinct, and it is a valid book or run. -/

def MeldWF (ihand : List IC) (wild_rank : String) (m : List IC) : Prop :=
  (∀ p ∈ m, p ∈ ihand) ∧ (m.map Prod.fst).Nodup ∧
    (is_valid_book (cardsOf m) wild_rank = true ∨
      is_valid_run (cardsOf m) wild_rank = some true)

theorem mem_nonWildsOf {ihand : List IC} {wild_rank : String} {p : IC} :
    p ∈ nonWildsOf ihand wild_rank ↔
      p ∈ ihand ∧ is_wild p.2 wild_rank = false := by
  simp [nonWildsOf]

theorem mem_wildsOf {ihand : List IC} {wild_rank : String} {p : IC} :
    p ∈ wildsOf ihand wild_rank ↔
      p ∈ ihand ∧ is_wild p.2 wild_rank = true := by
  simp [wildsOf]

/-- Distinct positions determine distinct hand cards. -/
theorem fst_inj_of_nodup {α : Type} :
    ∀ (l : List (Nat × α)), (l.map Prod.fst).Nodup →
      ∀ a ∈ l, ∀ b ∈ l, a.1 = b.1 → a = b := by
  intro l
  induction l with
  | nil => intro _ a ha; simp at ha
  | cons x xs ih =>
    intro hnd a ha b hb hab
    simp only [List.map_cons, List.nodup_cons] at hnd
    obtain ⟨hx, hnd'⟩ := hnd
    rcases List.mem_cons.mp ha with rfl | ha' <;>
      rcases List.mem_cons.mp hb with rfl | hb'
    · rfl
    · exact absurd (hab ▸ List.mem_map_of_mem Prod.fst hb') hx
    · exact absurd (hab ▸ List.mem_map_of_mem Prod.fst ha') hx
    · exact ih hnd' a ha' b hb' hab

/-- Stable insertion permutes. -/
theorem insertByKey_perm {α : Type} (key : α → Nat) (x : α) :
    ∀ l : List α, (insertByKey key x l).Perm (x :: l) := by
  intro l
  induction l with
  | nil => simp [insertByKey]
  | cons y ys ih =>
    unfold insertByKey
    by_cases h : key x ≤ key y
    · rw [if_pos h]
    · rw [if_neg h]
      exact (List.Perm.cons y ih).trans (List.Perm.swap x y ys)

/-- Insertion sort permutes its input. -/
theorem sortByKey_perm {α : Type} (key : α → Nat) :
    ∀ l : List α, (sortByKey key l).Perm l := by
  intro l
  induction l with
  | nil => simp [sortByKey]
  | cons x xs ih =>
    unfold sortByKey
    exact (insertByKey_perm key x (sortByKey key xs)).trans (List.Perm.cons x ih)

/-- Every group produced by `groupByKey` is the filter of the input list
by its key, hence a sublist of the input. -/
theorem groupByKey_eq_filter {α κ : Type} [DecidableEq κ] (key : α → κ)
    (l : List α) (g : κ × List α) (hg : g ∈ groupByKey key l) :
    g.2 = l.filter (fun x => decide (key x = g.1)) := by
  unfold groupByKey at hg
  obtain ⟨k, _, hk⟩ := List.mem_map.mp hg
  rw [← hk]

/-- A block of non-wild cards and a block of wilds have disjoint
positions, so their concatenation keeps positions pairwise distinct. -/
theorem block_wf (ihand : List IC) (wild_rank : String)
    (hnodup : (ihand.map Prod.fst).Nodup) (s ws : List IC)
    (hs : ∀ p ∈ s, p ∈ nonWildsOf ihand wild_rank)
    (hsn : (s.map Prod.fst).Nodup)
    (hws : ∀ p ∈ ws, p ∈ wildsOf ihand wild_rank)
    (hwsn : (ws.map Prod.fst).Nodup) :
    (∀ p ∈ s ++ ws, p ∈ ihand) ∧ ((s ++ ws).map Prod.fst).Nodup := by
  constructor
  · intro p hp
    rcases List.mem_append.mp hp with h | h
    · exact (mem_nonWildsOf.mp (hs p h)).1
    · exact (mem_wildsOf.mp (hws p h)).1
  · rw [List.map_append, List.nodup_append]
    refine ⟨hsn, hwsn, ?_⟩
    intro x hx1 hx2
    obtain ⟨p, hp, hpx⟩ := List.mem_map.mp hx1
    obtain ⟨q, hq, hqx⟩ := List.mem_map.mp hx2
    obtain ⟨hpmem, hpw⟩ := mem_nonWildsOf.mp (hs p hp)
    obtain ⟨hqmem, hqw⟩ := mem_wildsOf.mp (hws q hq)
    have : p = q := fst_inj_of_nodup ihand hnodup p hpmem q hqmem
      (by rw [hpx, hqx])
    rw [this, hqw] at hpw
    cases hpw

/-- A subset of a rank/suit group consists of non-wild hand cards with
pairwise distinct positions. -/
theorem nonwild_block_wf {κ : Type} [DecidableEq κ] (ihand : List IC)
    (wild_rank : String) (hnodup : (ihand.map Prod.fst).Nodup)
    (key : IC → κ) (g : κ × List IC)
    (hg : g ∈ groupByKey key (nonWildsOf ihand wild_rank)) (s : List IC)
    (hs : s.Sublist g.2) :
    (∀ p ∈ s, p ∈ nonWildsOf ihand wild_rank) ∧ (s.map Prod.fst).Nodup := by
  have hgf := groupByKey_eq_filter key (nonWildsOf ihand wild_rank) g hg
  have hsub2 : g.2.Sublist (nonWildsOf ihand wild_rank) := by
    rw [hgf]; exact List.filter_sublist _
  have hsub3 : s.Sublist (nonWildsOf ihand wild_rank) := hs.trans hsub2
  have hsub4 : s.Sublist ihand := hsub3.trans (List.filter_sublist _)
  exact ⟨fun p hp => hsub3.subset hp,
    List.Nodup.sublist (List.Sublist.map Prod.fst hsub4) hnodup⟩

/-- Same as `nonwild_block_wf`, for subsets drawn from the sorted copy of
a suit group. -/
theorem nonwild_sorted_block_wf {κ : Type} [DecidableEq κ] (ihand : List IC)
    (wild_rank : String) (hnodup : (ihand.map Prod.fst).Nodup)
    (key : IC → κ) (g : κ × List IC)
    (hg : g ∈ groupByKey key (nonWildsOf ihand wild_rank)) (s : List IC)
    (hs : s.Sublist (sortPairs g.2)) :
    (∀ p ∈ s, p ∈ nonWildsOf ihand wild_rank) ∧ (s.map Prod.fst).Nodup := by
  have hperm : (sortPairs g.2).Perm g.2 := sortByKey_perm _ _
  have hgf := groupByKey_eq_filter key (nonWildsOf ihand wild_rank) g hg
  have hsub2 : g.2.Sublist (nonWildsOf ihand wild_rank) := by
    rw [hgf]; exact List.filter_sublist _
  have hg2n : (g.2.map Prod.fst).Nodup :=
    List.Nodup.sublist
      (List.Sublist.map Prod.fst (hsub2.trans (List.filter_sublist _))) hnodup
  have hsortn : ((sortPairs g.2).map Prod.fst).Nodup :=
    ((hperm.map Prod.fst).nodup_iff).mpr hg2n
  constructor
  · intro p hp
    exact hsub2.subset (hperm.subset (hs.subset hp))
  · exact List.Nodup.sublist (List.Sublist.map Prod.fst hs) hsortn

/-- A subset of the wild pool consists of wild hand cards with pairwise
distinct positions. -/
theorem wild_block_wf (ihand : List IC) (wild_rank : String)
    (hnodup : (ihand.map Prod.fst).Nodup) (ws : List IC)
    (hws : ws.Sublist (wildsOf ihand wild_rank)) :
    (∀ p ∈ ws, p ∈ wildsOf ihand wild_rank) ∧ (ws.map Prod.fst).Nodup := by
  refine ⟨fun p hp => hws.subset hp, ?_⟩
  exact List.Nodup.sublist
    (List.Sublist.map Prod.fst (hws.trans (List.filter_sublist _))) hnodup

/-- Every book produced by `find_all_books` is well formed. -/
theorem find_all_books_wf (ihand : List IC) (wild_rank : String)
    (hnodup : (ihand.map Prod.fst).Nodup) :
    ∀ m ∈ find_all_books ihand wild_rank, MeldWF ihand wild_rank m := by
  intro m hm
  simp only [find_all_books] at hm
  rcases List.mem_append.mp hm with hm | hm
  · obtain ⟨g, hg, hinner⟩ := List.mem_flatMap.mp hm
    obtain ⟨s, hsmem, hm2⟩ := List.mem_flatMap.mp hinner
    obtain ⟨hssub, _⟩ := List.mem_filter.mp hsmem
    rw [List.mem_sublists] at hssub
    obtain ⟨hsnw, hsn⟩ := nonwild_block_wf ihand wild_rank hnodup _ g hg s hssub
    rcases List.mem_append.mp hm2 with hm3 | hm3
    · by_cases hv : is_valid_book (cardsOf s) wild_rank = true
      · rw [if_pos hv] at hm3
        rcases List.mem_singleton.mp hm3 with rfl
        refine ⟨fun p hp => (mem_nonWildsOf.mp (hsnw p hp)).1, hsn, Or.inl hv⟩
      · rw [if_neg hv] at hm3
        simp at hm3
    · obtain ⟨ws, hwsmem, hws⟩ := List.mem_filterMap.mp hm3
      obtain ⟨hwssub, _⟩ := List.mem_filter.mp hwsmem
      rw [List.mem_sublists] at hwssub
      obtain ⟨hwsw, hwsn⟩ := wild_block_wf ihand wild_rank hnodup ws hwssub
      by_cases hv : is_valid_book (cardsOf (s ++ ws)) wild_rank = true
      · rw [if_pos hv] at hws
        injection hws with hws
        subst hws
        obtain ⟨hmem, hnd⟩ := block_wf ihand wild_rank hnodup s ws hsnw hsn hwsw hwsn
        exact ⟨hmem, hnd, Or.inl hv⟩
      · rw [if_neg hv] at hws
        cases hws
  · obtain ⟨g, hg, hinner⟩ := List.mem_flatMap.mp hm
    rcases hgd : g.2 with _ | ⟨c, rest⟩
    · rw [hgd] at hinner
      simp at hinner
    · rw [hgd] at hinner
      dsimp only at hinner
      obtain ⟨ws, hwsmem, hws⟩ := List.mem_filterMap.mp hinner
      obtain ⟨hwssub, _⟩ := List.mem_filter.mp hwsmem
      rw [List.mem_sublists] at hwssub
      obtain ⟨hwsw, hwsn⟩ := wild_block_wf ihand wild_rank hnodup ws hwssub
      have hcs : [c].Sublist g.2 := by
        rw [hgd]
        exact List.singleton_sublist.mpr (List.mem_cons_self c rest)
      obtain ⟨hcnw, hcn⟩ := nonwild_block_wf ihand wild_rank hnodup _ g hg [c] hcs
      by_cases hv : is_valid_book (cardsOf (c :: ws)) wild_rank = true
      · rw [if_pos hv] at hws
        injection hws with hws
        subst hws
        obtain ⟨hmem, hnd⟩ :=
          block_wf ihand wild_rank hnodup [c] ws hcnw hcn hwsw hwsn
        rw [List.singleton_append] at hmem hnd
        exact ⟨hmem, hnd, Or.inl hv⟩
      · rw [if_neg hv] at hws
        cases hws

/-- Every run produced by `find_all_runs` is well formed. -/
theorem find_all_runs_wf (ihand : List IC) (wild_rank : String)
    (hnodup : (ihand.map Prod.fst).Nodup) :
    ∀ m ∈ find_all_runs ihand wild_rank, MeldWF ihand wild_rank m := by
  intro m hm
  simp only [find_all_runs] at hm
  rcases List.mem_append.mp hm with hm | hm
  · obtain ⟨g, hg, hinner⟩ := List.mem_flatMap.mp hm
    obtain ⟨s, hsmem, hm2⟩ := List.mem_flatMap.mp hinner
    obtain ⟨hssub, _⟩ := List.mem_filter.mp hsmem
    rw [List.mem_sublists] at hssub
    obtain ⟨hsnw, hsn⟩ :=
      nonwild_sorted_block_wf ihand wild_rank hnodup _ g hg s hssub
    rcases List.mem_append.mp hm2 with hm3 | hm3
    · by_cases hv : is_valid_run (cardsOf s) wild_rank = some true
      · rw [if_pos hv] at hm3
        rcases List.mem_singleton.mp hm3 with rfl
        refine ⟨fun p hp => (mem_nonWildsOf.mp (hsnw p hp)).1, hsn, Or.inr hv⟩
      · rw [if_neg hv] at hm3
        simp at hm3
    · obtain ⟨ws, hwsmem, hws⟩ := List.mem_filterMap.mp hm3
      obtain ⟨hwssub, _⟩ := List.mem_filter.mp hwsmem
      rw [List.mem_sublists] at hwssub
      obtain ⟨hwsw, hwsn⟩ := wild_block_wf ihand wild_rank hnodup ws hwssub
      by_cases hv : is_valid_run (cardsOf (s ++ ws)) wild_rank = some true
      · rw [if_pos hv] at hws
        injection hws with hws
        subst hws
        obtain ⟨hmem, hnd⟩ :=
          block_wf ihand wild_rank hnodup s ws hsnw hsn hwsw hwsn
        exact ⟨hmem, hnd, Or.inr hv⟩
      · rw [if_neg hv] at hws
        cases hws
  · obtain ⟨g, hg, hinner⟩ := List.mem_flatMap.mp hm
    obtain ⟨s, hsmem, hm2⟩ := List.mem_flatMap.mp hinner
    obtain ⟨hssub, _⟩ := List.mem_filter.mp hsmem
    rw [List.mem_sublists] at hssub
    obtain ⟨hsnw, hsn⟩ := nonwild_block_wf ihand wild_rank hnodup _ g hg s hssub
    obtain ⟨ws, hwsmem, hws⟩ := List.mem_filterMap.mp hm2
    obtain ⟨hwssub, _⟩ := List.mem_filter.mp hwsmem
    rw [List.mem_sublists] at hwssub
    obtain ⟨hwsw, hwsn⟩ := wild_block_wf ihand wild_rank hnodup ws hwssub
    by_cases hv : 3 ≤ (s ++ ws).length ∧
        is_valid_run (cardsOf (s ++ ws)) wild_rank = some true
    · rw [if_pos hv] at hws
      injection hws with hws
      subst hws
      obtain ⟨hmem, hnd⟩ :=
        block_wf ihand wild_rank hnodup s ws hsnw hsn hwsw hwsn
      exact ⟨hmem, hnd, Or.inr hv.2⟩
    · rw [if_neg hv] at hws
      cases hws

/-- Every meld produced by `find_all_melds` is well formed. -/
theorem find_all_melds_wf (ihand : List IC) (wild_rank : String)
    (hnodup : (ihand.map Prod.fst).Nodup) :
    ∀ m ∈ find_all_melds ihand wild_rank, MeldWF ihand wild_rank m := by
  intro m hm
  rcases List.mem_append.mp hm with h | h
  · exact find_all_books_wf ihand wild_rank hnodup m h
  · exact find_all_runs_wf ihand wild_rank hnodup m h

/-- A card of a chosen meld is in the used-id set. -/
theorem mem_usedIds (melds : List (List IC)) (m : List IC) (p : IC)
    (hm : m ∈ melds) (hp : p ∈ m) : p.1 ∈ usedIds melds := by
  unfold usedIds
  rw [List.mem_flatten]
  exact ⟨m.map Prod.fst, List.mem_map_of_mem _ hm, List.mem_map_of_mem _ hp⟩

/-- What the selection scan can return: its running best, or a candidate
meld that does not overlap the used cards. -/
theorem pickBest_spec :
    ∀ (melds : List (List IC)) (used : List Nat) (wild_rank : String)
      (best : Option (List IC)) (bp : Nat) (m : List IC),
      pickBest melds used wild_rank best bp = some m →
      best = some m ∨ (m ∈ melds ∧ overlapsUsed used m = false) := by
  intro melds
  induction melds with
  | nil => intro used wild_rank best bp m h; exact Or.inl h
  | cons m0 rest ih =>
    intro used wild_rank best bp m h
    unfold pickBest at h
    by_cases h1 : overlapsUsed used m0 = true
    · rw [if_pos h1] at h
      rcases ih used wild_rank best bp m h with h2 | h2
      · exact Or.inl h2
      · exact Or.inr ⟨List.mem_cons_of_mem m0 h2.1, h2.2⟩
    · rw [if_neg h1] at h
      have h1' : overlapsUsed used m0 = false := Bool.eq_false_iff.mpr h1
      by_cases h2 : bp < meldPoints m0 wild_rank
      · rw [if_pos h2] at h
        rcases ih used wild_rank (some m0) (meldPoints m0 wild_rank) m h with h3 | h3
        · injection h3 with h3
          subst h3
          exact Or.inr ⟨List.mem_cons_self _ _, h1'⟩
        · exact Or.inr ⟨List.mem_cons_of_mem m0 h3.1, h3.2⟩
      · rw [if_neg h2] at h
        rcases ih used wild_rank best bp m h with h3 | h3
        · exact Or.inl h3
        · exact Or.inr ⟨List.mem_cons_of_mem m0 h3.1, h3.2⟩

/-- A meld that does not overlap the used cards of `acc` is position-
disjoint from every meld of `acc`. -/
theorem disj_of_not_overlaps (acc : List (List IC)) (m : List IC)
    (h : overlapsUsed (usedIds acc) m = false) :
    ∀ a ∈ acc, ∀ p ∈ a, ∀ q ∈ m, p.1 ≠ q.1 := by
  intro a ha p hp q hq hpq
  unfold overlapsUsed at h
  rw [List.any_eq_false] at h
  have hcont := h q hq
  have hpin : p.1 ∈ usedIds acc := mem_usedIds acc a p ha hp
  rw [← hpq] at hcont
  simp only [List.contains] at hcont
  exact hcont (List.elem_iff.mpr hpin)

/-- Invariant of the greedy selection loop: every produced meld satisfies
any property shared by the candidates and the starting melds, and the
produced melds are pairwise position-disjoint if the starting ones are. -/
theorem greedyLoop_spec (Q : List IC → Prop) :
    ∀ (fuel : Nat) (melds : List (List IC)) (wild_rank : String)
      (acc : List (List IC)),
      (∀ m ∈ melds, Q m) → (∀ m ∈ acc, Q m) →
      acc.Pairwise (fun m1 m2 => ∀ p ∈ m1, ∀ q ∈ m2, p.1 ≠ q.1) →
      (∀ m ∈ greedyLoop fuel melds wild_rank acc, Q m) ∧
        (greedyLoop fuel melds wild_rank acc).Pairwise
          (fun m1 m2 => ∀ p ∈ m1, ∀ q ∈ m2, p.1 ≠ q.1) := by
  intro fuel
  induction fuel with
  | zero => intro melds wild_rank acc _ hacc hp; exact ⟨hacc, hp⟩
  | succ fuel ih =>
    intro melds wild_rank acc hQ hacc hp
    unfold greedyLoop
    rcases hpk : pickBest melds (usedIds acc) wild_rank none 0 with _ | m
    · exact ⟨hacc, hp⟩
    · rcases pickBest_spec melds (usedIds acc) wild_rank none 0 m hpk with h | h
      · cases h
      · obtain ⟨hmem, hov⟩ := h
        apply ih melds wild_rank (acc ++ [m]) hQ
        · intro x hx
          rcases List.mem_append.mp hx with hx | hx
          · exact hacc x hx
          · rcases List.mem_singleton.mp hx with rfl
            exact hQ x hmem
        · rw [List.pairwise_append]
          refine ⟨hp, List.pairwise_singleton _ _, ?_⟩
          intro a ha b hb
          rcases List.mem_singleton.mp hb with rfl
          exact disj_of_not_overlaps acc b hov a ha

/-- Every game card is worth at least 3 points. -/
theorem card_value_pos (c : Card) (wild_rank : String)
    (h : c.rank ∈ RANK_ORDER ∨ c.rank = "Joker") :
    3 ≤ card_value c wild_rank := by
  unfold card_value
  by_cases hw : is_wild c wild_rank = true
  · rw [if_pos hw]; omega
  · rw [if_neg hw]
    rcases h with h | h
    · simp only [RANK_ORDER, List.mem_cons, List.not_mem_nil, or_false] at h
      rcases h with h|h|h|h|h|h|h|h|h|h|h <;> rw [h] <;> decide
    · exfalso
      apply hw
      unfold is_wild
      rw [h]
      simp

/-- On game cards, zero total value means no cards at all. -/
theorem hand_value_zero (cs : List Card) (wild_rank : String)
    (h : ∀ c ∈ cs, c.rank ∈ RANK_ORDER ∨ c.rank = "Joker")
    (hz : hand_value cs wild_rank = 0) : cs = [] := by
  cases cs with
  | nil => rfl
  | cons c cs' =>
    exfalso
    have h3 := card_value_pos c wild_rank (h c (List.mem_cons_self c cs'))
    unfold hand_value at hz
    omega

/-- With no melds chosen, the remaining points are the whole hand value. -/
theorem remainingPoints_nil (hand : List Card) (wild_rank : String) :
    remainingPoints hand.enum [] wild_rank = hand_value hand wild_rank := by
  unfold remainingPoints
  rw [show (fun (p : IC) => !((usedIds []).contains p.1)) = (fun _ => true) from
    rfl]
  rw [List.filter_true]
  unfold cardsOf
  rw [List.enum_map_snd]

/-- Zero remaining points over game cards means every hand position is
covered by a chosen meld. -/
theorem remainingPoints_zero_covered (ihand : List IC)
    (melds : List (List IC)) (wild_rank : String)
    (hlegal : ∀ p ∈ ihand, p.2.rank ∈ RANK_ORDER ∨ p.2.rank = "Joker")
    (h : remainingPoints ihand melds wild_rank = 0) :
    ∀ p ∈ ihand, p.1 ∈ usedIds melds := by
  unfold remainingPoints at h
  have hleg2 : ∀ c ∈ cardsOf (ihand.filter
      (fun p => !((usedIds melds).contains p.1))), c.rank ∈ RANK_ORDER ∨
        c.rank = "Joker" := by
    intro c hc
    obtain ⟨p, hp, hpc⟩ := List.mem_map.mp hc
    exact hpc ▸ hlegal p (List.mem_of_mem_filter hp)
  have hnil := hand_value_zero _ wild_rank hleg2 h
  unfold cardsOf at hnil
  rw [List.map_eq_nil_iff] at hnil
  intro p hp
  have hnp := List.filter_eq_nil_iff.mp hnil p hp
  by_contra hnot
  apply hnp
  simp only [Bool.not_eq_true', Bool.not_eq_false]
  simp only [List.contains]
  by_contra helem
  exact hnot (List.elem_iff.mp (by
    revert helem
    cases hel : List.elem p.1 (usedIds melds)
    · intro hc; exact absurd rfl hc
    · intro _; rfl))

/-- The invariant maintained by the restart loop of
`find_best_meld_combination`: chosen melds come from the deduplicated
candidates, are pairwise position-disjoint, and the tracked score is the
remaining-point count of the chosen melds. -/
def SolverInv (ihand : List IC) (wild_rank : String) (U : List (List IC))
    (best : List (List IC) × Nat) : Prop :=
  (∀ m ∈ best.1, m ∈ U) ∧
  best.1.Pairwise (fun m1 m2 => ∀ p ∈ m1, ∀ q ∈ m2, p.1 ≠ q.1) ∧
  best.2 = remainingPoints ihand best.1 wild_rank

/-- A greedy pass started from candidates in `U` yields melds in `U`,
pairwise position-disjoint. -/
theorem greedy_from_inv (U : List (List IC)) (wild_rank : String)
    (start : List (List IC)) (hstart : ∀ m ∈ start, m ∈ U)
    (hp : start.Pairwise (fun m1 m2 => ∀ p ∈ m1, ∀ q ∈ m2, p.1 ≠ q.1)) :
    (∀ m ∈ greedy_meld_selection U wild_rank start, m ∈ U) ∧
      (greedy_meld_selection U wild_rank start).Pairwise
        (fun m1 m2 => ∀ p ∈ m1, ∀ q ∈ m2, p.1 ≠ q.1) :=
  greedyLoop_spec (fun m => m ∈ U) _ U wild_rank start (fun _ hm => hm) hstart hp

/-- The restart fold of `find_best_meld_combination` preserves the solver
invariant. -/
theorem solver_fold_spec (ihand : List IC) (wild_rank : String)
    (U : List (List IC)) (init : List (List IC) × Nat)
    (hinit : SolverInv ihand wild_rank U init) :
    SolverInv ihand wild_rank U
      (U.foldl (fun best start =>
        let result := greedy_meld_selection U wild_rank [start]
        let pts := remainingPoints ihand result wild_rank
        if pts < best.2 then (result, pts) else best) init) := by
  refine List.foldlRecOn U _ init hinit ?_
  intro b hb a ha
  dsimp only
  by_cases hlt : remainingPoints ihand
      (greedy_meld_selection U wild_rank [a]) wild_rank < b.2
  · rw [if_pos hlt]
    obtain ⟨hmem, hpair⟩ := greedy_from_inv U wild_rank [a]
      (by intro m hm; rcases List.mem_singleton.mp hm with rfl; exact ha)
      (List.pairwise_singleton _ _)
    exact ⟨hmem, hpair, rfl⟩
  · rw [if_neg hlt]
    exact hb

/-- On a nonempty hand `find_best_meld_combination` satisfies the solver
invariant with respect to the deduplicated candidate melds. -/
theorem find_best_spec (hand : List Card) (wild_rank : String)
    (h : ¬hand = []) :
    SolverInv hand.enum wild_rank
      (dedupMelds (find_all_melds hand.enum wild_rank))
      (find_best_meld_combination hand wild_rank) := by
  unfold find_best_meld_combination
  rw [if_neg h]
  have hinit : SolverInv hand.enum wild_rank
      (dedupMelds (find_all_melds hand.enum wild_rank))
      ([], hand_value hand wild_rank) :=
    ⟨by simp, List.Pairwise.nil, (remainingPoints_nil hand wild_rank).symm⟩
  have hfold := solver_fold_spec hand.enum wild_rank
    (dedupMelds (find_all_melds hand.enum wild_rank)) _ hinit
  dsimp only
  split
  · obtain ⟨hmem, hpair⟩ := greedy_from_inv
      (dedupMelds (find_all_melds hand.enum wild_rank)) wild_rank []
      (by simp) List.Pairwise.nil
    exact ⟨hmem, hpair, rfl⟩
  · exact hfold

/-- A used position comes from some card of some chosen meld. -/
theorem usedIds_elim (melds : List (List IC)) (x : Nat)
    (h : x ∈ usedIds melds) : ∃ m ∈ melds, ∃ q ∈ m, q.1 = x := by
  unfold usedIds at h
  obtain ⟨l, hl, hx⟩ := List.mem_flatten.mp h
  obtain ⟨m, hm, hml⟩ := List.mem_map.mp hl
  subst hml
  obtain ⟨q, hq, hqx⟩ := List.mem_map.mp hx
  exact ⟨m, hm, q, hq, hqx⟩

/-- Pairwise position-disjoint melds with internally distinct positions
flatten to a list of cards with pairwise distinct positions. -/
theorem flatten_fst_nodup :
    ∀ (melds : List (List IC)),
      (∀ m ∈ melds, (m.map Prod.fst).Nodup) →
      melds.Pairwise (fun m1 m2 => ∀ p ∈ m1, ∀ q ∈ m2, p.1 ≠ q.1) →
      ((melds.flatten).map Prod.fst).Nodup := by
  intro melds
  induction melds with
  | nil => intro _ _; simp
  | cons m rest ih =>
    intro hnd hp
    rw [List.pairwise_cons] at hp
    obtain ⟨hhead, htail⟩ := hp
    rw [List.flatten_cons, List.map_append, List.nodup_append]
    refine ⟨hnd m (List.mem_cons_self m rest), ih
      (fun m' hm' => hnd m' (List.mem_cons_of_mem m hm')) htail, ?_⟩
    intro x hx1 hx2
    obtain ⟨p, hp1, hpx⟩ := List.mem_map.mp hx1
    obtain ⟨q, hq1, hqx⟩ := List.mem_map.mp hx2
    obtain ⟨m', hm', hq2⟩ := List.mem_flatten.mp hq1
    exact hhead m' hm' p hp1 q hq2 (by rw [hpx, hqx])

/-- C2 amended: *soundness* of `can_go_out` — whenever it answers `true`
on a hand of game cards (at most 13 in play), the melds it returns are
valid books or runs, pairwise card-disjoint by hand position, and their
cards are exactly the whole hand (their concatenation is a permutation of
the indexed hand), so the leftover value is 0; and whenever it answers
`false` it returns no melds.  The converse of the claim's "iff" is false
(see the counterexample): a hand admitting a full partition can still be
answered `false`, because the enumerator omits some valid melds. -/
theorem claim_C2_can_go_out_sound :
    (∀ (hand : List Card) (wild_rank : String) (melds : List (List IC)),
      hand.length ≤ 13 →
      (∀ c ∈ hand, c.rank ∈ RANK_ORDER ∨ c.rank = "Joker") →
      can_go_out hand wild_rank = (true, some melds) →
      (∀ m ∈ melds, is_valid_book (cardsOf m) wild_rank = true ∨
        is_valid_run (cardsOf m) wild_rank = some true) ∧
      melds.Pairwise (fun m1 m2 => ∀ p ∈ m1, ∀ q ∈ m2, p.1 ≠ q.1) ∧
      (melds.flatten).Perm hand.enum) ∧
    (∀ (hand : List Card) (wild_rank : String),
      (can_go_out hand wild_rank).1 = false →
      (can_go_out hand wild_rank).2 = none) := by
  constructor
  · intro hand wild_rank melds _ hlegal hcg
    unfold can_go_out at hcg
    by_cases hz : (find_best_meld_combination hand wild_rank).2 = 0
    · rw [if_pos hz] at hcg
      rw [Prod.mk.injEq] at hcg
      have hm : (find_best_meld_combination hand wild_rank).1 = melds :=
        Option.some_injective _ hcg.2
      by_cases hhand : hand = []
      · subst hhand
        have : melds = [] := by rw [← hm]; rfl
        subst this
        exact ⟨by simp, List.Pairwise.nil, by simp [List.enum]⟩
      · obtain ⟨hmemU, hpair, hpts⟩ := find_best_spec hand wild_rank hhand
        rw [hm] at hmemU hpair hpts
        have hcover0 : remainingPoints hand.enum melds wild_rank = 0 := by
          rw [← hpts]; exact hz
        have hnodup : (hand.enum.map Prod.fst).Nodup := by
          rw [List.enum_map_fst]; exact List.nodup_range _
        have hlegal2 : ∀ p ∈ hand.enum,
            p.2.rank ∈ RANK_ORDER ∨ p.2.rank = "Joker" := by
          intro p hp
          apply hlegal
          have := List.mem_map_of_mem Prod.snd hp
          rwa [List.enum_map_snd] at this
        have hwf : ∀ m ∈ melds, MeldWF hand.enum wild_rank m := fun m hm' =>
          find_all_melds_wf hand.enum wild_rank hnodup m
            (dedupLoop_subset _ [] m (hmemU m hm'))
        refine ⟨fun m hm' => (hwf m hm').2.2, hpair, ?_⟩
        have hsub : ∀ p ∈ melds.flatten, p ∈ hand.enum := by
          intro p hp
          obtain ⟨m, hm', hp'⟩ := List.mem_flatten.mp hp
          exact (hwf m hm').1 p hp'
        have hfn : ((melds.flatten).map Prod.fst).Nodup :=
          flatten_fst_nodup melds (fun m hm' => (hwf m hm').2.1) hpair
        have hjn : (melds.flatten).Nodup := List.Nodup.of_map Prod.fst hfn
        have hsp1 : (melds.flatten).Subperm hand.enum :=
          List.Nodup.subperm hjn hsub
        have hcov := remainingPoints_zero_covered hand.enum melds wild_rank
          hlegal2 hcover0
        have hsub2 : ∀ p ∈ hand.enum, p ∈ melds.flatten := by
          intro p hp
          obtain ⟨m, hm', q, hq, hqx⟩ := usedIds_elim melds p.1 (hcov p hp)
          have hqmem : q ∈ hand.enum := (hwf m hm').1 q hq
          have : q = p := fst_inj_of_nodup hand.enum hnodup q hqmem p hp hqx
          subst this
          exact List.mem_flatten.mpr ⟨m, hm', hq⟩
        have hen : (hand.enum).Nodup := List.Nodup.of_map Prod.fst hnodup
        have hsp2 : (hand.enum).Subperm melds.flatten :=
          List.Nodup.subperm hen hsub2
        exact List.Subperm.antisymm hsp1 hsp2
    · rw [if_neg hz] at hcg
      rw [Prod.mk.injEq] at hcg
      cases hcg.1
  · intro hand wild_rank hfalse
    unfold can_go_out at hfalse ⊢
    by_cases hz : (find_best_meld_combination hand wild_rank).2 = 0
    · rw [if_pos hz] at hfalse
      cases hfalse
    · rw [if_neg hz]

/-- C2 counterexample: `[7♥,7♠,Joker]` with wild rank 3 is fully covered
by the single valid book consisting of the whole hand, yet `can_go_out`
answers `false` with no melds (the enumerator never produces that book). -/
theorem claim_C2_counterexample :
    is_valid_book [c7H, c7S, cJok] "3" = true ∧
    (([[(0, c7H), (1, c7S), (2, cJok)]] : List (List IC)).flatten).Perm
      ([c7H, c7S, cJok].enum) ∧
    can_go_out [c7H, c7S, cJok] "3" = (false, none) := by
  refine ⟨by decide, ?_, by decide⟩
  simp [List.enum]

/-- C2 amended witness: `[7♥,7♠,7♣]` with wild rank 3 goes out with the
single book of all three cards, and the returned meld partitions the hand. -/
theorem claim_C2_witness :
    (∀ m ∈ ([[(0, c7H), (1, c7S), (2, c7C)]] : List (List IC)),
      is_valid_book (cardsOf m) "3" = true ∨
        is_valid_run (cardsOf m) "3" = some true) ∧
    ([[(0, c7H), (1, c7S), (2, c7C)]] : List (List IC)).Pairwise
      (fun m1 m2 => ∀ p ∈ m1, ∀ q ∈ m2, p.1 ≠ q.1) ∧
    (([[(0, c7H), (1, c7S), (2, c7C)]] : List (List IC)).flatten).Perm
      ([c7H, c7S, c7C].enum) :=
  claim_C2_can_go_out_sound.1 [c7H, c7S, c7C] "3"
    [[(0, c7H), (1, c7S), (2, c7C)]] (by decide) (by decide) (by decide)
